import Mathlib

/-!
# Shallow embedding of `bik-grapher`

This file embeds the core logic of the `bik-grapher` program (source:
`src/index.ts`, latest variant with the `--include` option, a
`FilesystemCache` class, and a two-region `main`): the CloudFormation
pagination wrapper (`consumeAllTokens`, `listImports`), the read-through
filesystem cache (`FilesystemCache.cacheOrWork`), the interestingness
filter (`isInterestingStack`), node naming (`getNodeNameForApp`,
`getNodeNameForStack`, `getTagValue`), the stack map (`getStacks`) and
the graph-emission loop (`processCloudFormation`, `main`).

Modelling conventions:
* AWS SDK optional fields become `Option`; JavaScript string truthiness
  (`undefined`, `null` and `""` are falsy) is `isTruthy`.
* Functions that `throw` return `Except String _`.  Thrown message texts
  are abbreviated (the source interpolates objects into them).
* The regular expressions the source builds by interpolating the plain
  `environment` and `--app` names are given literal-string semantics:
  the pattern `-env-|-env$` is "contains `-env-` or ends with `-env`"
  and the pattern `^(a|b)-` is "starts with `a-` or `b-`"; when the
  interpolated alternation `apps.join` is empty the pattern is `^()-`,
  which matches any string starting with `-`.
* Filesystem and image side effects are reified as lists of `Event`s in
  the order the source issues them.
-/

namespace BikGrapher

/-- JavaScript truthiness of a `string | null | undefined` value:
falsy exactly when absent or the empty string. -/
def isTruthy : Option String → Bool
  | none => false
  | some s => s ≠ ""

/-- `p` is a prefix of `s` (semantics of the source's `/^p.../` tests on
literal `p`). -/
def strPrefix (p s : String) : Bool := p.data.isPrefixOf s.data

/-- `p` is a suffix of `s` (semantics of the source's `/...p$/` tests on
literal `p`). -/
def strSuffix (p s : String) : Bool := p.data.isSuffixOf s.data

/-- `p` occurs inside `s` (semantics of an unanchored literal regex test). -/
def strInfix (p s : String) : Bool := decide (p.data <:+: s.data)

/-- A CloudFormation tag (`Tag` from the AWS SDK). -/
structure Tag where
  Key : Option String
  Value : Option String
deriving DecidableEq, Repr

/-- A CloudFormation stack (`Stack` from the AWS SDK); only the fields the
program reads.  `ParentId = none` models the property being absent, so the
source's `"ParentId" in stack` is `ParentId.isSome`. -/
structure Stack where
  StackId : Option String
  StackName : Option String
  ParentId : Option String
  Tags : Option (List Tag)
deriving DecidableEq, Repr

/-- A CloudFormation export (`Export` from the AWS SDK). -/
structure Export where
  ExportingStackId : Option String
  Name : Option String
deriving DecidableEq, Repr

/-- `getTagValue(stack, key)`: throws when `Tags` is absent, returns `null`
when no tag has the key, throws when the found tag's `Value` is falsy
(absent or empty), and otherwise returns the value. -/
def getTagValue (stack : Stack) (key : String) : Except String (Option String) :=
  match stack.Tags with
  | none => .error "Invalid stack"
  | some tags =>
    match tags.find? (fun tag => tag.Key = some key) with
    | none => .ok none
    | some tag =>
      if isTruthy tag.Value then .ok tag.Value else .error "Invalid tag"

/-- `RegionConfiguration`: `implicit = true` marks the hard-coded extra
us-east-1 pass. -/
structure RegionConfiguration where
  region : Option String
  implicit : Bool
deriving DecidableEq, Repr

/-- The suffix the node-name functions append for an implicit region pass:
`` ` (${regionConfig.region})` `` (JavaScript renders an absent region as
`"undefined"`). -/
def regionSuffix (rc : RegionConfiguration) : String :=
  if rc.implicit then " (" ++ rc.region.getD "undefined" ++ ")" else ""

/-- `getNodeNameForApp(stack, regionConfig)`: the coarse-grained node name,
`'<balsamiq-product>-<environment>'` when both tags are present (plus the
implicit-region suffix), otherwise the stack name (plus the suffix),
throwing when neither is available. -/
def getNodeNameForApp (stack : Stack) (rc : RegionConfiguration) :
    Except String String := do
  let appName ← getTagValue stack "balsamiq-product"
  let environment ← getTagValue stack "environment"
  if isTruthy appName && isTruthy environment then
    return appName.getD "" ++ "-" ++ environment.getD "" ++ regionSuffix rc
  else if isTruthy stack.StackName then
    return stack.StackName.getD "" ++ regionSuffix rc
  else
    .error "Invalid stack"

/-- `getNodeNameForStack(stack, regionConfig)`: the fine-grained node name,
the stack name plus the implicit-region suffix, throwing when the stack
name is falsy. -/
def getNodeNameForStack (stack : Stack) (rc : RegionConfiguration) :
    Except String String :=
  if isTruthy stack.StackName then
    .ok (stack.StackName.getD "" ++ regionSuffix rc)
  else
    .error "Invalid stack"

/-- The app prefixes excluded by the pattern
`^(workflow-triggerer|autosavedreactionsforslack|acetaia|bottega)-`. -/
def excludedAppPrefixes : List String :=
  ["workflow-triggerer", "autosavedreactionsforslack", "acetaia", "bottega"]

/-- Membership test for the `--include` option: the source's
`!includes || !includes.includes(x)` is the negation of this. -/
def includesHas (includes : Option (List String)) (x : String) : Bool :=
  match includes with
  | none => false
  | some l => l.contains x

/-- The test `new RegExp(`-${environment}-|-${environment}$`)` with
literal-string semantics. -/
def envMatches (environment name : String) : Bool :=
  strInfix ("-" ++ environment ++ "-") name || strSuffix ("-" ++ environment) name

/-- The source's app-prefix regex test with literal-string semantics; for
the empty list the pattern is `^()-`, matching any name that starts
with `-`. -/
def appsMatch (apps : Option (List String)) (name : String) : Bool :=
  match apps with
  | none => true
  | some [] => strPrefix "-" name
  | some l => l.any (fun a => strPrefix (a ++ "-") name)

/-- `isInterestingStack(stack, environment, apps, includes)`: throws when the
stack name is falsy; otherwise applies the fixed exclusions (CDKToolkit,
nested stacks, `internal-`, `balsamiq-slack`, excluded app prefixes), the
`-mysql`/`-redis` exclusions unless included, the environment test, and the
app-prefix test when `apps` is supplied. -/
def isInterestingStack (stack : Stack) (environment : String)
    (apps : Option (List String)) (includes : Option (List String)) :
    Except String Bool :=
  if !isTruthy stack.StackName then .error "Invalid stack"
  else
    let name := stack.StackName.getD ""
    let result := true
    let result := result
      && !(name = "CDKToolkit")
      && !stack.ParentId.isSome
      && !strPrefix "internal-" name
      && !(name = "balsamiq-slack")
      && !excludedAppPrefixes.any (fun p => strPrefix (p ++ "-") name)
    let result := if !includesHas includes "mysql" then
        result && !strSuffix "-mysql" name
      else result
    let result := if !includesHas includes "redis" then
        result && !strSuffix "-redis" name
      else result
    .ok (result && envMatches environment name && appsMatch apps name)

/-- The two output directories, `.output/apps` (coarse) and
`.output/stacks` (fine). -/
inductive Dir where
  | apps
  | stacks
deriving DecidableEq, Repr

/-- A reified side effect of the emission code, in program order:
* `unit dir node` — `writeFile(join(dir, node + ".js"), "")`;
* `dep dir importing exporting exportName` — `appendFile` of
  `require('./exporting')` (commented with the export name) to the file
  `importing + ".js"` in `dir`;
* `image file` — `madge(...).image(file)`. -/
inductive Event where
  | unit (dir : Dir) (node : String)
  | dep (dir : Dir) (importing exporting exportName : String)
  | image (file : String)
deriving DecidableEq, Repr

/-- JavaScript `Map.set` on an association list: replaces the value in
place when the key is present, otherwise appends (insertion order). -/
def jsMapSet : List (String × Stack) → String → Stack → List (String × Stack)
  | [], k, v => [(k, v)]
  | (k0, v0) :: rest, k, v =>
    if k0 = k then (k, v) :: rest else (k0, v0) :: jsMapSet rest k v

/-- JavaScript `Map.get`: the value stored at `k`, if any. -/
def jsMapGet : List (String × Stack) → String → Option Stack
  | [], _ => none
  | (k0, v0) :: rest, k => if k0 = k then some v0 else jsMapGet rest k

/-- JavaScript `Map.values()` as a list (one value per key, insertion
order). -/
def jsMapValues (m : List (String × Stack)) : List Stack :=
  m.map (fun p => p.2)

/-- The `reduce` inside `getStacks`: folds the fetched stack list into a
map keyed by both `StackId` and `StackName`, throwing when either is
falsy.  (The network fetch and the cache layer around it are modelled
separately; the fetched list is the input.) -/
def getStacksAux (m : List (String × Stack)) :
    List Stack → Except String (List (String × Stack))
  | [] => .ok m
  | stack :: rest =>
    if !isTruthy stack.StackId || !isTruthy stack.StackName then
      .error "Invalid stack"
    else
      getStacksAux
        (jsMapSet (jsMapSet m (stack.StackId.getD "") stack)
          (stack.StackName.getD "") stack)
        rest

/-- `getStacks` proper, starting from the empty map. -/
def getStacks (stackList : List Stack) : Except String (List (String × Stack)) :=
  getStacksAux [] stackList

/-- The guard `!apps || apps.length > 1` controlling every coarse-grained
output (`apps` is the `--app` option: absent, or a non-empty list). -/
def multiApp (apps : Option (List String)) : Bool :=
  match apps with
  | none => true
  | some l => l.length > 1

/-- `[...stacks.values()].filter(stack => isInterestingStack(...))`: the
predicate can throw, which aborts the whole filter. -/
def filterInteresting (environment : String) (apps includes : Option (List String)) :
    List Stack → Except String (List Stack)
  | [] => .ok []
  | stack :: rest => do
    let b ← isInterestingStack stack environment apps includes
    let others ← filterInteresting environment apps includes rest
    return if b then stack :: others else others

/-- The guarded coarse-grained placeholder write for one interesting
stack: an empty unit in the apps directory, only under the `multiApp`
guard. -/
def placeholderAppUnit (rc : RegionConfiguration) (apps : Option (List String))
    (stack : Stack) : Except String (List Event) :=
  if multiApp apps then do
    let n ← getNodeNameForApp stack rc
    pure [Event.unit Dir.apps n]
  else
    pure []

/-- The body of the placeholder loop for one interesting stack: an empty
unit in the apps directory (only under the `multiApp` guard) and one in
the stacks directory. -/
def placeholderEvents (rc : RegionConfiguration) (apps : Option (List String))
    (stack : Stack) : Except String (List Event) := do
  let appEvents ← placeholderAppUnit rc apps stack
  let n ← getNodeNameForStack stack rc
  return appEvents ++ [Event.unit Dir.stacks n]

/-- Sequences a list of event-producing steps, concatenating their events;
the shape of every `for ... of` loop in the emission code. -/
def collectEvents (f : α → Except String (List Event)) :
    List α → Except String (List Event)
  | [] => .ok []
  | a :: rest => do
    let evs ← f a
    let more ← collectEvents f rest
    return evs ++ more

/-- The app-level block of the inner import loop: under the `multiApp`
guard, computes both app node names and appends the coarse dependency
only when they differ. -/
def appDepEvents (rc : RegionConfiguration) (apps : Option (List String))
    (eexport : Export) (exportingStack importingStack : Stack) :
    Except String (List Event) :=
  if multiApp apps then do
    let exportingNode ← getNodeNameForApp exportingStack rc
    let importingNode ← getNodeNameForApp importingStack rc
    if exportingNode ≠ importingNode then
      pure [Event.dep Dir.apps importingNode exportingNode
        (eexport.Name.getD "undefined")]
    else
      pure []
  else
    pure []

/-- The stack-level block of the inner import loop: computes both stack
node names and appends the fine dependency only when they differ. -/
def stackDepEvents (rc : RegionConfiguration) (eexport : Export)
    (exportingStack importingStack : Stack) : Except String (List Event) := do
  let exportingNode ← getNodeNameForStack exportingStack rc
  let importingNode ← getNodeNameForStack importingStack rc
  if exportingNode ≠ importingNode then
    pure [Event.dep Dir.stacks importingNode exportingNode
      (eexport.Name.getD "undefined")]
  else
    pure []

/-- The body of the inner import loop for one importing stack name: looks
the stack up, skips it when uninteresting, and otherwise appends the
app-level dependency (under the `multiApp` guard, and only when the two
app node names differ) and the stack-level dependency (only when the two
stack node names differ).  `exportingStack` is already known interesting. -/
def processImport (stackMap : List (String × Stack)) (rc : RegionConfiguration)
    (environment : String) (apps includes : Option (List String))
    (eexport : Export) (exportingStack : Stack) (iimport : String) :
    Except String (List Event) := do
  match jsMapGet stackMap iimport with
  | none => .error ("Couldn't find stack '" ++ iimport ++ "'")
  | some importingStack => do
    let b ← isInterestingStack importingStack environment apps includes
    if !b then
      return []
    else do
      let appEvents ← appDepEvents rc apps eexport exportingStack importingStack
      let stackEvents ← stackDepEvents rc eexport exportingStack importingStack
      return appEvents ++ stackEvents

/-- One export paired with the stack names that import it (the shape
`{ export, imports }` produced by `getExportsWithImportingStacks`). -/
structure ExportWithImports where
  eexport : Export
  imports : List String
deriving DecidableEq, Repr

/-- The body of the outer export loop for one export: validates the
exporting stack id, looks the stack up, skips the whole export when the
exporting stack is uninteresting, and otherwise processes each import. -/
def processExport (stackMap : List (String × Stack)) (rc : RegionConfiguration)
    (environment : String) (apps includes : Option (List String))
    (e : ExportWithImports) : Except String (List Event) := do
  if !isTruthy e.eexport.ExportingStackId then
    .error "Invalid export"
  else
    match jsMapGet stackMap (e.eexport.ExportingStackId.getD "") with
    | none =>
      .error ("Couldn't find stack '" ++ e.eexport.ExportingStackId.getD "" ++ "'")
    | some exportingStack => do
      let b ← isInterestingStack exportingStack environment apps includes
      if !b then
        return []
      else
        collectEvents
          (processImport stackMap rc environment apps includes e.eexport exportingStack)
          e.imports

/-- `processCloudFormation` for one region, taking the fetched stacks and
the exports-with-imports pairing as input: builds the stack map, writes
the placeholder units for every interesting stack, then emits the
dependency declarations. -/
def processCloudFormation (stacksInput : List Stack)
    (exportsWithImports : List ExportWithImports) (rc : RegionConfiguration)
    (environment : String) (apps includes : Option (List String)) :
    Except String (List Event) := do
  let stackMap ← getStacks stacksInput
  let interesting ← filterInteresting environment apps includes (jsMapValues stackMap)
  let placeholders ← collectEvents (placeholderEvents rc apps) interesting
  let deps ← collectEvents (processExport stackMap rc environment apps includes)
    exportsWithImports
  return placeholders ++ deps

/-- The tail of `main`: the second, implicit pass for us-east-1, skipped
when the configured region is already us-east-1. -/
def secondPassEvents (region : Option String)
    (stacksInputUsEast1 : List Stack)
    (exportsWithImportsUsEast1 : List ExportWithImports)
    (environment : String) (apps includes : Option (List String)) :
    Except String (List Event) :=
  if region ≠ some "us-east-1" then
    processCloudFormation stacksInputUsEast1 exportsWithImportsUsEast1
      ⟨some "us-east-1", true⟩ environment apps includes
  else
    pure []

/-- The tail of `main`, continued: both passes then the images. -/
def mainEvents (region : Option String)
    (stacksInput : List Stack) (exportsWithImports : List ExportWithImports)
    (stacksInputUsEast1 : List Stack)
    (exportsWithImportsUsEast1 : List ExportWithImports)
    (environment : String) (apps includes : Option (List String)) :
    Except String (List Event) := do
  let evs ← processCloudFormation stacksInput exportsWithImports
    ⟨region, false⟩ environment apps includes
  let evs2 ← secondPassEvents region stacksInputUsEast1
    exportsWithImportsUsEast1 environment apps includes
  let appImage :=
    if multiApp apps then [Event.image "graph-apps.png"] else []
  return evs ++ evs2 ++ appImage ++ [Event.image "graph-stacks.png"]

/-! ## The read-through filesystem cache (`FilesystemCache`) -/

/-- `readFile` returning `null` on a missing file
(`FilesystemCache._readFileOrNull`): the cache directory's contents are an
association list from relative file name to file contents. -/
def readFileOrNull : List (String × String) → String → Option String
  | [], _ => none
  | (n, c) :: rest, name => if n = name then some c else readFileOrNull rest name

/-- `writeFile`: replaces the contents when the file exists, otherwise
creates it. -/
def fsWrite : List (String × String) → String → String → List (String × String)
  | [], name, contents => [(name, contents)]
  | (n, c) :: rest, name, contents =>
    if n = name then (name, contents) :: rest
    else (n, c) :: fsWrite rest name contents

/-- State threaded through `cacheOrWork`: the cache directory's files,
plus an instrumentation counter of how many times the `work` function has
run (not part of the source; it makes "work is invoked exactly once"
expressible). -/
structure CacheState where
  files : List (String × String)
  workCount : Nat
deriving DecidableEq, Repr

/-- `FilesystemCache.cacheOrWork(path, work)`: reads the cache file; when
the contents are truthy (the file exists and is non-empty) returns
`JSON.parse` of them without running `work`; otherwise runs `work`,
writes `JSON.stringify` of the result to the cache file, and returns the
result.  `stringify` and `parse` model `JSON.stringify`/`JSON.parse` for
the cached type. -/
def cacheOrWork (stringify : α → String) (parse : String → α)
    (key : String) (work : Unit → α) (st : CacheState) : α × CacheState :=
  let cacheContents := readFileOrNull st.files key
  if isTruthy cacheContents then
    (parse (cacheContents.getD ""), st)
  else
    let result := work ()
    (result, ⟨fsWrite st.files key (stringify result), st.workCount + 1⟩)

/-! ## The pagination wrapper (`CloudFormation.consumeAllTokens`) -/

/-- One API response: the result list under the command's result property
(absent when the service omits it) and the `NextToken`. -/
structure Page (T : Type) where
  results : Option (List T)
  nextToken : Option String
deriving DecidableEq, Repr

/-- The `do/while` loop of `consumeAllTokens`, started with request token
`token`, consuming the transcript of responses in order.  Returns the
accumulated results together with the token sent on each request, or
`none` when the transcript ends while a `NextToken` is still pending. -/
def consumeAllTokensFrom (token : Option String) :
    List (Page T) → Option (List T × List (Option String))
  | [] => none
  | p :: rest =>
    match p.nextToken with
    | none => some (p.results.getD [], [token])
    | some t =>
      match consumeAllTokensFrom (some t) rest with
      | none => none
      | some (res, toks) => some (p.results.getD [] ++ res, token :: toks)

/-- `consumeAllTokens`: the pagination loop, whose first request carries no
token. -/
def consumeAllTokens (pages : List (Page T)) :
    Option (List T × List (Option String)) :=
  consumeAllTokensFrom none pages

/-! ## `listImports` error handling -/

/-- An error thrown by `cfClient.send`: either a
`CloudFormationServiceException` (with its message) or any other error. -/
inductive CfError where
  | serviceException (message : String)
  | otherError (message : String)
deriving DecidableEq, Repr

/-- The service's message when an export has no importers. -/
def notImportedMessage (exportName : String) : String :=
  "Export '" ++ exportName ++ "' is not imported by any stack."

/-- `consumeAllTokens` over a transcript in which each `send` may throw:
the first thrown error aborts the loop and propagates. -/
def consumeAllTokensE :
    List (Except CfError (Page T)) → Option (Except CfError (List T))
  | [] => none
  | .error e :: _ => some (.error e)
  | .ok p :: rest =>
    match p.nextToken with
    | none => some (.ok (p.results.getD []))
    | some _ =>
      match consumeAllTokensE rest with
      | none => none
      | some (.error e) => some (.error e)
      | some (.ok res) => some (.ok (p.results.getD [] ++ res))

/-- `CloudFormation.listImports(exportName)`: wraps the pagination loop,
turning exactly the `CloudFormationServiceException` whose message says
the export is not imported by any stack into an empty result, and
rethrowing every other error. -/
def listImports (exportName : String)
    (pages : List (Except CfError (Page String))) :
    Option (Except CfError (List String)) :=
  match consumeAllTokensE pages with
  | none => none
  | some (.ok r) => some (.ok r)
  | some (.error e) =>
    if e = .serviceException (notImportedMessage exportName) then
      some (.ok [])
    else
      some (.error e)

/-! ## Helper lemmas -/

/-- Decomposing a successful `Except` bind. -/
theorem exceptBind_ok {α β : Type} {x : Except String α} {f : α → Except String β}
    {b : β} (h : x >>= f = .ok b) : ∃ a, x = .ok a ∧ f a = .ok b := by
  cases x with
  | error e => exact absurd h (by intro h; exact Except.noConfusion h)
  | ok a => exact ⟨a, rfl, h⟩

/-- Every event of a successful `collectEvents` run comes from some input
element's events. -/
theorem collectEvents_mem {α : Type} {f : α → Except String (List Event)} :
    ∀ {l : List α} {r : List Event}, collectEvents f l = .ok r →
      ∀ {ev : Event}, ev ∈ r → ∃ a ∈ l, ∃ b, f a = .ok b ∧ ev ∈ b := by
  intro l
  induction l with
  | nil =>
    intro r h ev hev
    have hr : Except.ok ([] : List Event) = Except.ok r := h
    injection hr with hr
    subst hr
    simp at hev
  | cons a rest ih =>
    intro r h ev hev
    obtain ⟨evs, hfa, h2⟩ := exceptBind_ok h
    obtain ⟨more, hrest, h3⟩ := exceptBind_ok h2
    have hr : Except.ok (evs ++ more) = Except.ok r := h3
    injection hr with hr
    subst hr
    rcases List.mem_append.mp hev with hmem | hmem
    · exact ⟨a, List.mem_cons_self a rest, evs, hfa, hmem⟩
    · obtain ⟨a2, ha2, b, hb, hevb⟩ := ih hrest hmem
      exact ⟨a2, List.mem_cons_of_mem a ha2, b, hb, hevb⟩

/-- In a successful `collectEvents` run, each input element's events all
appear in the result. -/
theorem collectEvents_sub {α : Type} {f : α → Except String (List Event)} :
    ∀ {l : List α} {r : List Event}, collectEvents f l = .ok r →
      ∀ {a : α}, a ∈ l → ∃ b, f a = .ok b ∧ ∀ ev ∈ b, ev ∈ r := by
  intro l
  induction l with
  | nil =>
    intro r _ a ha
    simp at ha
  | cons a0 rest ih =>
    intro r h a ha
    obtain ⟨evs, hfa, h2⟩ := exceptBind_ok h
    obtain ⟨more, hrest, h3⟩ := exceptBind_ok h2
    have hr : Except.ok (evs ++ more) = Except.ok r := h3
    injection hr with hr
    subst hr
    rcases List.mem_cons.mp ha with hmem | hmem
    · subst hmem
      exact ⟨evs, hfa, fun ev hev => List.mem_append.mpr (Or.inl hev)⟩
    · obtain ⟨b, hb, hsub⟩ := ih hrest hmem
      exact ⟨b, hb, fun ev hev => List.mem_append.mpr (Or.inr (hsub ev hev))⟩

/-- A stack that the throwing filter keeps is in the filtered list. -/
theorem filterInteresting_mem {environment : String}
    {apps includes : Option (List String)} :
    ∀ {l r : List Stack}, filterInteresting environment apps includes l = .ok r →
      ∀ {s : Stack}, s ∈ l →
        isInterestingStack s environment apps includes = .ok true → s ∈ r := by
  intro l
  induction l with
  | nil =>
    intro r _ s hs
    simp at hs
  | cons s0 rest ih =>
    intro r h s hs hint
    obtain ⟨b, hb, h2⟩ := exceptBind_ok h
    obtain ⟨others, hothers, h3⟩ := exceptBind_ok h2
    have hr : Except.ok (if b then s0 :: others else others) = Except.ok r := h3
    injection hr with hr
    subst hr
    rcases List.mem_cons.mp hs with hmem | hmem
    · subst hmem
      rw [hint] at hb
      injection hb with hb
      subst hb
      simp
    · have : s ∈ others := ih hothers hmem hint
      cases b <;> simp [this]

/-- When the `multiApp` guard is off, the app-level block emits nothing. -/
theorem appDepEvents_not_multi {rc : RegionConfiguration}
    {apps : Option (List String)} {eexport : Export} {E I : Stack}
    (hm : multiApp apps = false) :
    appDepEvents rc apps eexport E I = .ok [] := by
  unfold appDepEvents
  rw [hm]
  rfl

/-- Every event the app-level block emits is a coarse dependency between
two distinct app nodes. -/
theorem appDepEvents_shape {rc : RegionConfiguration}
    {apps : Option (List String)} {eexport : Export} {E I : Stack}
    {l : List Event} (h : appDepEvents rc apps eexport E I = .ok l) :
    ∀ ev ∈ l, ∃ i e, e ≠ i ∧
      ev = Event.dep Dir.apps i e (eexport.Name.getD "undefined") := by
  unfold appDepEvents at h
  cases hm : multiApp apps with
  | false =>
    rw [hm] at h
    have hr : Except.ok ([] : List Event) = Except.ok l := h
    injection hr with hr
    subst hr
    simp
  | true =>
    rw [hm] at h
    obtain ⟨en, hen, h2⟩ := exceptBind_ok h
    obtain ⟨im, him, h3⟩ := exceptBind_ok h2
    by_cases hne : en ≠ im
    · rw [if_pos hne] at h3
      have hr : Except.ok [Event.dep Dir.apps im en (eexport.Name.getD "undefined")]
          = Except.ok l := h3
      injection hr with hr
      subst hr
      intro ev hev
      simp at hev
      exact ⟨im, en, hne, hev⟩
    · rw [if_neg hne] at h3
      have hr : Except.ok ([] : List Event) = Except.ok l := h3
      injection hr with hr
      subst hr
      simp

/-- The stack-level block, given the two stack node names. -/
theorem stackDepEvents_spec {rc : RegionConfiguration} {eexport : Export}
    {E I : Stack} {en im : String}
    (hen : getNodeNameForStack E rc = .ok en)
    (him : getNodeNameForStack I rc = .ok im) :
    stackDepEvents rc eexport E I =
      .ok (if en ≠ im then
        [Event.dep Dir.stacks im en (eexport.Name.getD "undefined")]
      else []) := by
  unfold stackDepEvents
  rw [hen, him]
  show (if en ≠ im then
      (pure [Event.dep Dir.stacks im en (eexport.Name.getD "undefined")]
        : Except String (List Event))
    else pure []) = _
  by_cases hne : en ≠ im
  · rw [if_pos hne, if_pos hne]
    rfl
  · rw [if_neg hne, if_neg hne]
    rfl

/-- Every event the stack-level block emits is a fine dependency between
two distinct stack nodes. -/
theorem stackDepEvents_shape {rc : RegionConfiguration} {eexport : Export}
    {E I : Stack} {l : List Event} (h : stackDepEvents rc eexport E I = .ok l) :
    ∀ ev ∈ l, ∃ i e, e ≠ i ∧
      ev = Event.dep Dir.stacks i e (eexport.Name.getD "undefined") := by
  unfold stackDepEvents at h
  obtain ⟨en, hen, h2⟩ := exceptBind_ok h
  obtain ⟨im, him, h3⟩ := exceptBind_ok h2
  by_cases hne : en ≠ im
  · rw [if_pos hne] at h3
    have hr : Except.ok [Event.dep Dir.stacks im en (eexport.Name.getD "undefined")]
        = Except.ok l := h3
    injection hr with hr
    subst hr
    intro ev hev
    simp at hev
    exact ⟨im, en, hne, hev⟩
  · rw [if_neg hne] at h3
    have hr : Except.ok ([] : List Event) = Except.ok l := h3
    injection hr with hr
    subst hr
    simp

/-- Decomposing a successful `processImport` run on an interesting
importing stack. -/
theorem processImport_ok {stackMap : List (String × Stack)}
    {rc : RegionConfiguration} {environment : String}
    {apps includes : Option (List String)} {eexport : Export} {E I : Stack}
    {iimport : String} {l : List Event}
    (hI : jsMapGet stackMap iimport = some I)
    (hint : isInterestingStack I environment apps includes = .ok true)
    (h : processImport stackMap rc environment apps includes eexport E iimport
      = .ok l) :
    ∃ a s, appDepEvents rc apps eexport E I = .ok a ∧
      stackDepEvents rc eexport E I = .ok s ∧ l = a ++ s := by
  unfold processImport at h
  rw [hI] at h
  obtain ⟨b, hb, h2⟩ := exceptBind_ok h
  rw [hint] at hb
  injection hb with hb
  subst hb
  obtain ⟨a, ha, h3⟩ := exceptBind_ok h2
  obtain ⟨st, hst, h4⟩ := exceptBind_ok h3
  have hr : Except.ok (a ++ st) = Except.ok l := h4
  injection hr with hr
  subst hr
  exact ⟨a, st, ha, hst, rfl⟩

/-- An uninteresting importing stack contributes nothing. -/
theorem processImport_skip {stackMap : List (String × Stack)}
    {rc : RegionConfiguration} {environment : String}
    {apps includes : Option (List String)} {eexport : Export} {E I : Stack}
    {iimport : String}
    (hI : jsMapGet stackMap iimport = some I)
    (hint : isInterestingStack I environment apps includes = .ok false) :
    processImport stackMap rc environment apps includes eexport E iimport
      = .ok [] := by
  simp only [processImport, hI, hint]
  rfl

/-- An export whose exporting stack is uninteresting contributes nothing
(in either directory). -/
theorem processExport_skip {stackMap : List (String × Stack)}
    {rc : RegionConfiguration} {environment : String}
    {apps includes : Option (List String)} {e : ExportWithImports} {E : Stack}
    (htr : isTruthy e.eexport.ExportingStackId = true)
    (hE : jsMapGet stackMap (e.eexport.ExportingStackId.getD "") = some E)
    (hint : isInterestingStack E environment apps includes = .ok false) :
    processExport stackMap rc environment apps includes e = .ok [] := by
  simp only [processExport, htr, hE, hint]
  rfl

/-- Decomposing a successful `processExport` run on an interesting
exporting stack: it is the inner import loop. -/
theorem processExport_ok {stackMap : List (String × Stack)}
    {rc : RegionConfiguration} {environment : String}
    {apps includes : Option (List String)} {e : ExportWithImports} {E : Stack}
    {l : List Event}
    (htr : isTruthy e.eexport.ExportingStackId = true)
    (hE : jsMapGet stackMap (e.eexport.ExportingStackId.getD "") = some E)
    (hint : isInterestingStack E environment apps includes = .ok true)
    (h : processExport stackMap rc environment apps includes e = .ok l) :
    collectEvents
      (processImport stackMap rc environment apps includes e.eexport E)
      e.imports = .ok l := by
  simp only [processExport, htr, hE, hint] at h
  exact h

/-- Self-dependency freedom of a single event: any `dep` it happens to be
relates two distinct nodes. -/
def depOk (ev : Event) : Prop :=
  ∀ d i e nm, ev = Event.dep d i e nm → i ≠ e

/-- Every event of a successful `processImport` run is self-dependency
free. -/
theorem processImport_depOk {stackMap : List (String × Stack)}
    {rc : RegionConfiguration} {environment : String}
    {apps includes : Option (List String)} {eexport : Export} {E : Stack}
    {iimport : String} {l : List Event}
    (h : processImport stackMap rc environment apps includes eexport E iimport
      = .ok l) :
    ∀ ev ∈ l, depOk ev := by
  unfold processImport at h
  cases hmg : jsMapGet stackMap iimport with
  | none =>
    rw [hmg] at h
    exact absurd h (by intro h; exact Except.noConfusion h)
  | some I =>
    rw [hmg] at h
    obtain ⟨b, _, h2⟩ := exceptBind_ok h
    cases b with
    | false =>
      have hr : Except.ok ([] : List Event) = Except.ok l := h2
      injection hr with hr
      subst hr
      simp
    | true =>
      obtain ⟨a, ha, h3⟩ := exceptBind_ok h2
      obtain ⟨st, hst, h4⟩ := exceptBind_ok h3
      have hr : Except.ok (a ++ st) = Except.ok l := h4
      injection hr with hr
      subst hr
      intro ev hev
      rcases List.mem_append.mp hev with hmem | hmem
      · obtain ⟨i, e2, hne, heq⟩ := appDepEvents_shape ha ev hmem
        intro d i2 e3 nm h5
        rw [heq] at h5
        injection h5 with _ h6 h7
        subst h6
        subst h7
        exact fun hc => hne hc.symm
      · obtain ⟨i, e2, hne, heq⟩ := stackDepEvents_shape hst ev hmem
        intro d i2 e3 nm h5
        rw [heq] at h5
        injection h5 with _ h6 h7
        subst h6
        subst h7
        exact fun hc => hne hc.symm

/-- Every event of a successful `processExport` run is self-dependency
free. -/
theorem processExport_depOk {stackMap : List (String × Stack)}
    {rc : RegionConfiguration} {environment : String}
    {apps includes : Option (List String)} {e : ExportWithImports}
    {l : List Event}
    (h : processExport stackMap rc environment apps includes e = .ok l) :
    ∀ ev ∈ l, depOk ev := by
  unfold processExport at h
  cases htr : isTruthy e.eexport.ExportingStackId with
  | false =>
    rw [htr] at h
    exact absurd h (by intro h; exact Except.noConfusion h)
  | true =>
    rw [htr] at h
    cases hmg : jsMapGet stackMap (e.eexport.ExportingStackId.getD "") with
    | none =>
      rw [hmg] at h
      exact absurd h (by intro h; exact Except.noConfusion h)
    | some E =>
      rw [hmg] at h
      obtain ⟨b, _, h2⟩ := exceptBind_ok h
      cases b with
      | false =>
        have hr : Except.ok ([] : List Event) = Except.ok l := h2
        injection hr with hr
        subst hr
        simp
      | true =>
        intro ev hev
        obtain ⟨_, _, b2, hb2, hevb⟩ := collectEvents_mem h2 hev
        exact processImport_depOk hb2 ev hevb

/-- Decomposing a successful per-stack placeholder run: it always writes
the fine-grained unit, writes the coarse unit exactly under the
`multiApp` guard, and writes nothing else. -/
theorem placeholderEvents_ok {rc : RegionConfiguration}
    {apps : Option (List String)} {s : Stack} {l : List Event}
    (h : placeholderEvents rc apps s = .ok l) :
    ∃ n, getNodeNameForStack s rc = .ok n ∧ Event.unit Dir.stacks n ∈ l ∧
      (multiApp apps = true →
        ∀ na, getNodeNameForApp s rc = .ok na → Event.unit Dir.apps na ∈ l) ∧
      (multiApp apps = false → l = [Event.unit Dir.stacks n]) ∧
      ∀ ev ∈ l, ∃ d m, ev = Event.unit d m := by
  unfold placeholderEvents at h
  obtain ⟨appEvents, hx, h2⟩ := exceptBind_ok h
  obtain ⟨n, hn, h3⟩ := exceptBind_ok h2
  have hr : Except.ok (appEvents ++ [Event.unit Dir.stacks n]) = Except.ok l := h3
  injection hr with hr
  subst hr
  unfold placeholderAppUnit at hx
  cases hm : multiApp apps with
  | false =>
    rw [hm] at hx
    have hae : Except.ok ([] : List Event) = Except.ok appEvents := hx
    injection hae with hae
    subst hae
    refine ⟨n, hn, by simp, ?_, ?_, ?_⟩
    · intro hmt
      exact absurd hmt (by simp)
    · intro _
      rfl
    · intro ev hev
      simp at hev
      exact ⟨Dir.stacks, n, hev⟩
  | true =>
    rw [hm] at hx
    obtain ⟨na, hna, hx2⟩ := exceptBind_ok hx
    have hae : Except.ok [Event.unit Dir.apps na] = Except.ok appEvents := hx2
    injection hae with hae
    subst hae
    refine ⟨n, hn, by simp, ?_, ?_, ?_⟩
    · intro _ na2 hna2
      rw [hna] at hna2
      injection hna2 with hna2
      subst hna2
      simp
    · intro hmf
      exact absurd hmf (by simp)
    · intro ev hev
      rcases List.mem_append.mp hev with hmem | hmem <;> simp at hmem
      · exact ⟨Dir.apps, na, hmem⟩
      · exact ⟨Dir.stacks, n, hmem⟩

/-- Decomposing a successful `processCloudFormation` run into its stack
map, interesting-stack list, placeholder events and dependency events. -/
theorem processCloudFormation_ok {stacksInput : List Stack}
    {ew : List ExportWithImports} {rc : RegionConfiguration}
    {environment : String} {apps includes : Option (List String)}
    {evs : List Event}
    (h : processCloudFormation stacksInput ew rc environment apps includes
      = .ok evs) :
    ∃ m interesting ph deps,
      getStacks stacksInput = .ok m ∧
      filterInteresting environment apps includes (jsMapValues m)
        = .ok interesting ∧
      collectEvents (placeholderEvents rc apps) interesting = .ok ph ∧
      collectEvents (processExport m rc environment apps includes) ew
        = .ok deps ∧
      evs = ph ++ deps := by
  unfold processCloudFormation at h
  obtain ⟨m, hm, h2⟩ := exceptBind_ok h
  obtain ⟨interesting, hint, h3⟩ := exceptBind_ok h2
  obtain ⟨ph, hph, h4⟩ := exceptBind_ok h3
  obtain ⟨deps, hdeps, h5⟩ := exceptBind_ok h4
  have hr : Except.ok (ph ++ deps) = Except.ok evs := h5
  injection hr with hr
  subst hr
  exact ⟨m, interesting, ph, deps, hm, hint, hph, hdeps, rfl⟩

/-- Decomposing a successful `mainEvents` run into the two regional passes
and the image events. -/
theorem mainEvents_ok {region : Option String} {stacksInput : List Stack}
    {ew : List ExportWithImports} {stacksInputUE : List Stack}
    {ewUE : List ExportWithImports} {environment : String}
    {apps includes : Option (List String)} {evs : List Event}
    (h : mainEvents region stacksInput ew stacksInputUE ewUE environment apps
      includes = .ok evs) :
    ∃ e1 e2,
      processCloudFormation stacksInput ew ⟨region, false⟩ environment apps
        includes = .ok e1 ∧
      (e2 = [] ∨
        processCloudFormation stacksInputUE ewUE ⟨some "us-east-1", true⟩
          environment apps includes = .ok e2) ∧
      evs = e1 ++ e2 ++
        (if multiApp apps then [Event.image "graph-apps.png"] else []) ++
        [Event.image "graph-stacks.png"] := by
  unfold mainEvents at h
  obtain ⟨e1, he1, h2⟩ := exceptBind_ok h
  obtain ⟨e2, he2, h3⟩ := exceptBind_ok h2
  have hr : Except.ok (e1 ++ e2 ++
      (if multiApp apps then [Event.image "graph-apps.png"] else []) ++
      [Event.image "graph-stacks.png"]) = Except.ok evs := h3
  injection hr with hr
  subst hr
  refine ⟨e1, e2, he1, ?_, rfl⟩
  unfold secondPassEvents at he2
  by_cases hreg : region ≠ some "us-east-1"
  · rw [if_pos hreg] at he2
    exact Or.inr he2
  · rw [if_neg hreg] at he2
    have he : Except.ok ([] : List Event) = Except.ok e2 := he2
    injection he with he
    exact Or.inl he.symm

/-- Every event of a successful `processCloudFormation` run is
self-dependency free. -/
theorem processCloudFormation_depOk {stacksInput : List Stack}
    {ew : List ExportWithImports} {rc : RegionConfiguration}
    {environment : String} {apps includes : Option (List String)}
    {evs : List Event}
    (h : processCloudFormation stacksInput ew rc environment apps includes
      = .ok evs) :
    ∀ ev ∈ evs, depOk ev := by
  obtain ⟨m, interesting, ph, deps, _, _, hph, hdeps, heq⟩ :=
    processCloudFormation_ok h
  subst heq
  intro ev hev
  rcases List.mem_append.mp hev with hmem | hmem
  · obtain ⟨s, _, b, hb, hevb⟩ := collectEvents_mem hph hmem
    obtain ⟨n, _, _, _, _, hshape⟩ := placeholderEvents_ok hb
    obtain ⟨d2, m2, hunit⟩ := hshape ev hevb
    intro d i e nm hdep
    rw [hunit] at hdep
    exact Event.noConfusion hdep
  · obtain ⟨a, _, b, hb, hevb⟩ := collectEvents_mem hdeps hmem
    exact processExport_depOk hb ev hevb

/-- Sample stack of the `bas` app in the staging environment. -/
def stackBas : Stack :=
  ⟨some "arn-bas", some "bas-api-staging", none,
    some [⟨some "balsamiq-product", some "bas"⟩,
      ⟨some "environment", some "staging"⟩]⟩

/-- Sample stack of the `rtc` app in the staging environment. -/
def stackRtc : Stack :=
  ⟨some "arn-rtc", some "rtc-api-staging", none,
    some [⟨some "balsamiq-product", some "rtc"⟩,
      ⟨some "environment", some "staging"⟩]⟩

/-- The stack map `getStacks` builds for `[stackBas, stackRtc]`. -/
def sampleStackMap : List (String × Stack) :=
  [("arn-bas", stackBas), ("bas-api-staging", stackBas),
   ("arn-rtc", stackRtc), ("rtc-api-staging", stackRtc)]

/-- C8: No dependency declaration is ever emitted from a unit to itself:
in every successful run, every appended require line (in either output
directory) names a node different from the node of the file it is
appended to — in particular, two distinct stacks mapping to the same
app-level node produce no app-level declaration. -/
theorem c8_no_self_dependency {region : Option String}
    {stacksInput : List Stack} {ew : List ExportWithImports}
    {stacksInputUE : List Stack} {ewUE : List ExportWithImports}
    {environment : String} {apps includes : Option (List String)}
    {evs : List Event}
    (h : mainEvents region stacksInput ew stacksInputUE ewUE environment apps
      includes = .ok evs) :
    ∀ d i e nm, Event.dep d i e nm ∈ evs → i ≠ e := by
  obtain ⟨e1, e2, he1, he2, heq⟩ := mainEvents_ok h
  subst heq
  intro d i e nm hmem
  rcases List.mem_append.mp hmem with h1 | h1
  rotate_left
  · simp at h1
  rcases List.mem_append.mp h1 with h2 | h2
  rotate_left
  · by_cases hma : multiApp apps
    · rw [if_pos hma] at h2
      simp at h2
    · rw [if_neg hma] at h2
      simp at h2
  rcases List.mem_append.mp h2 with h3 | h3
  · exact processCloudFormation_depOk he1 _ h3 d i e nm rfl
  · rcases he2 with he2 | he2
    · subst he2
      simp at h3
    · exact processCloudFormation_depOk he2 _ h3 d i e nm rfl

/-- C8 witness: a concrete run containing dependency declarations, whose
app-level declaration relates the two distinct nodes of the sample
stacks. -/
theorem c8_no_self_dependency_witness :
    mainEvents (some "us-east-1") [stackBas, stackRtc]
      [⟨⟨some "arn-bas", some "exp"⟩, ["rtc-api-staging"]⟩] [] []
      "staging" none none = .ok
      [Event.unit Dir.apps "bas-staging",
       Event.unit Dir.stacks "bas-api-staging",
       Event.unit Dir.apps "bas-staging",
       Event.unit Dir.stacks "bas-api-staging",
       Event.unit Dir.apps "rtc-staging",
       Event.unit Dir.stacks "rtc-api-staging",
       Event.unit Dir.apps "rtc-staging",
       Event.unit Dir.stacks "rtc-api-staging",
       Event.dep Dir.apps "rtc-staging" "bas-staging" "exp",
       Event.dep Dir.stacks "rtc-api-staging" "bas-api-staging" "exp",
       Event.image "graph-apps.png",
       Event.image "graph-stacks.png"] ∧
    ("rtc-staging" : String) ≠ "bas-staging" := by
  have h : mainEvents (some "us-east-1") [stackBas, stackRtc]
      [⟨⟨some "arn-bas", some "exp"⟩, ["rtc-api-staging"]⟩] [] []
      "staging" none none = .ok
      [Event.unit Dir.apps "bas-staging",
       Event.unit Dir.stacks "bas-api-staging",
       Event.unit Dir.apps "bas-staging",
       Event.unit Dir.stacks "bas-api-staging",
       Event.unit Dir.apps "rtc-staging",
       Event.unit Dir.stacks "rtc-api-staging",
       Event.unit Dir.apps "rtc-staging",
       Event.unit Dir.stacks "rtc-api-staging",
       Event.dep Dir.apps "rtc-staging" "bas-staging" "exp",
       Event.dep Dir.stacks "rtc-api-staging" "bas-api-staging" "exp",
       Event.image "graph-apps.png",
       Event.image "graph-stacks.png"] := rfl
  exact ⟨h, c8_no_self_dependency h Dir.apps "rtc-staging" "bas-staging" "exp"
    (by decide)⟩

/-- C1: for an export and a stack that imports it, when both the exporting
and the importing stack pass the interestingness filter, the stacks-level
require line from the importing unit to the exporting node is appended if
and only if the two stack-level node names differ; a pair whose importing
stack fails the filter contributes no declaration, and when the exporting
stack fails the filter the whole export emits nothing in either
directory. -/
theorem c1_stacks_level_dependency {stackMap : List (String × Stack)}
    {rc : RegionConfiguration} {environment : String}
    {apps includes : Option (List String)} {e : ExportWithImports} {E : Stack}
    {l : List Event}
    (htr : isTruthy e.eexport.ExportingStackId = true)
    (hE : jsMapGet stackMap (e.eexport.ExportingStackId.getD "") = some E)
    (hrun : processExport stackMap rc environment apps includes e = .ok l) :
    (∀ I iimport en im, iimport ∈ e.imports →
      jsMapGet stackMap iimport = some I →
      isInterestingStack E environment apps includes = .ok true →
      isInterestingStack I environment apps includes = .ok true →
      getNodeNameForStack E rc = .ok en →
      getNodeNameForStack I rc = .ok im →
      (Event.dep Dir.stacks im en (e.eexport.Name.getD "undefined") ∈ l ↔
        en ≠ im))
    ∧ (∀ I iimport, jsMapGet stackMap iimport = some I →
      isInterestingStack I environment apps includes = .ok false →
      processImport stackMap rc environment apps includes e.eexport E iimport
        = .ok [])
    ∧ (isInterestingStack E environment apps includes = .ok false →
      l = []) := by
  refine ⟨?_, ?_, ?_⟩
  · intro I iimport en im hImem hI hintE hintI hen him
    constructor
    · intro hmem
      have hne := processExport_depOk hrun _ hmem Dir.stacks im en
        (e.eexport.Name.getD "undefined") rfl
      exact fun hc => hne hc.symm
    · intro hne
      have hcoll := processExport_ok htr hE hintE hrun
      obtain ⟨b, hb, hsub⟩ := collectEvents_sub hcoll hImem
      obtain ⟨a, s2, _, hs, heq⟩ := processImport_ok hI hintI hb
      rw [stackDepEvents_spec hen him, if_pos hne] at hs
      have hs2 : Except.ok [Event.dep Dir.stacks im en (e.eexport.Name.getD "undefined")]
          = Except.ok s2 := hs
      injection hs2 with hs2
      subst hs2
      subst heq
      exact hsub _ (List.mem_append.mpr (Or.inr (by simp)))
  · intro I iimport hI hintI
    exact processImport_skip hI hintI
  · intro hintE
    have h2 := @processExport_skip stackMap rc environment apps includes e E
      htr hE hintE
    rw [hrun] at h2
    exact Except.ok.inj h2

/-- C1 witness: the concrete export from `stackBas` imported by
`stackRtc`; both stacks are interesting and the stacks-level require line
is appended because their node names differ. -/
theorem c1_stacks_level_dependency_witness :
    Event.dep Dir.stacks "rtc-api-staging" "bas-api-staging" "exp" ∈
      [Event.dep Dir.apps "rtc-staging" "bas-staging" "exp",
       Event.dep Dir.stacks "rtc-api-staging" "bas-api-staging" "exp"] :=
  ((@c1_stacks_level_dependency sampleStackMap ⟨some "eu-west-1", false⟩
      "staging" none none
      ⟨⟨some "arn-bas", some "exp"⟩, ["rtc-api-staging"]⟩ stackBas
      [Event.dep Dir.apps "rtc-staging" "bas-staging" "exp",
       Event.dep Dir.stacks "rtc-api-staging" "bas-api-staging" "exp"]
      rfl rfl rfl).1 stackRtc "rtc-api-staging"
      "bas-api-staging" "rtc-api-staging" (by decide) rfl rfl rfl rfl
      rfl).mpr (by decide)

/-- An event belonging to the coarse-grained (apps-level) output: an
apps-directory unit or dependency, or the apps graph image. -/
def coarse : Event → Bool
  | .unit Dir.apps _ => true
  | .dep Dir.apps _ _ _ => true
  | .image f => f = "graph-apps.png"
  | _ => false

/-- With the `multiApp` guard off, a successful `processImport` run emits
no coarse event. -/
theorem processImport_fine_only {stackMap : List (String × Stack)}
    {rc : RegionConfiguration} {environment : String}
    {apps includes : Option (List String)} {eexport : Export} {E : Stack}
    {iimport : String} {l : List Event} (hm : multiApp apps = false)
    (h : processImport stackMap rc environment apps includes eexport E iimport
      = .ok l) :
    ∀ ev ∈ l, coarse ev = false := by
  unfold processImport at h
  cases hmg : jsMapGet stackMap iimport with
  | none =>
    rw [hmg] at h
    exact absurd h (by intro h; exact Except.noConfusion h)
  | some I =>
    rw [hmg] at h
    obtain ⟨b, _, h2⟩ := exceptBind_ok h
    cases b with
    | false =>
      have hr : Except.ok ([] : List Event) = Except.ok l := h2
      injection hr with hr
      subst hr
      simp
    | true =>
      obtain ⟨a, ha, h3⟩ := exceptBind_ok h2
      obtain ⟨st, hst, h4⟩ := exceptBind_ok h3
      have hr : Except.ok (a ++ st) = Except.ok l := h4
      injection hr with hr
      subst hr
      rw [appDepEvents_not_multi hm] at ha
      have ha2 : ([] : List Event) = a := Except.ok.inj ha
      subst ha2
      intro ev hev
      rcases List.mem_append.mp hev with hmem | hmem
      · simp at hmem
      · obtain ⟨i, e2, _, heq⟩ := stackDepEvents_shape hst ev hmem
        rw [heq]
        rfl

/-- With the `multiApp` guard off, a successful `processExport` run emits
no coarse event. -/
theorem processExport_fine_only {stackMap : List (String × Stack)}
    {rc : RegionConfiguration} {environment : String}
    {apps includes : Option (List String)} {e : ExportWithImports}
    {l : List Event} (hm : multiApp apps = false)
    (h : processExport stackMap rc environment apps includes e = .ok l) :
    ∀ ev ∈ l, coarse ev = false := by
  unfold processExport at h
  cases htr : isTruthy e.eexport.ExportingStackId with
  | false =>
    rw [htr] at h
    exact absurd h (by intro h; exact Except.noConfusion h)
  | true =>
    rw [htr] at h
    cases hmg : jsMapGet stackMap (e.eexport.ExportingStackId.getD "") with
    | none =>
      rw [hmg] at h
      exact absurd h (by intro h; exact Except.noConfusion h)
    | some E =>
      rw [hmg] at h
      obtain ⟨b, _, h2⟩ := exceptBind_ok h
      cases b with
      | false =>
        have hr : Except.ok ([] : List Event) = Except.ok l := h2
        injection hr with hr
        subst hr
        simp
      | true =>
        intro ev hev
        obtain ⟨_, _, b2, hb2, hevb⟩ := collectEvents_mem h2 hev
        exact processImport_fine_only hm hb2 ev hevb

/-- With the `multiApp` guard off, a successful `processCloudFormation`
run emits no coarse event. -/
theorem processCloudFormation_fine_only {stacksInput : List Stack}
    {ew : List ExportWithImports} {rc : RegionConfiguration}
    {environment : String} {apps includes : Option (List String)}
    {evs : List Event} (hm : multiApp apps = false)
    (h : processCloudFormation stacksInput ew rc environment apps includes
      = .ok evs) :
    ∀ ev ∈ evs, coarse ev = false := by
  obtain ⟨m, interesting, ph, deps, _, _, hph, hdeps, heq⟩ :=
    processCloudFormation_ok h
  subst heq
  intro ev hev
  rcases List.mem_append.mp hev with hmem | hmem
  · obtain ⟨s, _, b, hb, hevb⟩ := collectEvents_mem hph hmem
    obtain ⟨n, _, _, _, honly, _⟩ := placeholderEvents_ok hb
    rw [honly hm] at hevb
    simp at hevb
    rw [hevb]
    rfl
  · obtain ⟨a, _, b, hb, hevb⟩ := collectEvents_mem hdeps hmem
    exact processExport_fine_only hm hb ev hevb

/-- C2 amended: the coarse-grained outputs (apps-directory units and
dependency declarations, and the apps graph image) are produced exactly
when the `--app` option is absent or lists more than one app: with a
single `--app` the run emits no coarse event at all, and otherwise the
apps graph image is generated. -/
theorem c2_coarse_gating {region : Option String}
    {stacksInput : List Stack} {ew : List ExportWithImports}
    {stacksInputUE : List Stack} {ewUE : List ExportWithImports}
    {environment : String} {apps includes : Option (List String)}
    {evs : List Event}
    (h : mainEvents region stacksInput ew stacksInputUE ewUE environment apps
      includes = .ok evs) :
    (multiApp apps = false → ∀ ev ∈ evs, coarse ev = false)
    ∧ (multiApp apps = true → Event.image "graph-apps.png" ∈ evs) := by
  obtain ⟨e1, e2, he1, he2, heq⟩ := mainEvents_ok h
  subst heq
  constructor
  · intro hm ev hev
    rcases List.mem_append.mp hev with h1 | h1
    rotate_left
    · simp at h1
      rw [h1]
      rfl
    rcases List.mem_append.mp h1 with h2 | h2
    rotate_left
    · rw [hm] at h2
      simp at h2
    rcases List.mem_append.mp h2 with h3 | h3
    · exact processCloudFormation_fine_only hm he1 ev h3
    · rcases he2 with he2 | he2
      · subst he2
        simp at h3
      · exact processCloudFormation_fine_only hm he2 ev h3
  · intro hm
    rw [hm]
    refine List.mem_append.mpr (Or.inl (List.mem_append.mpr (Or.inr ?_)))
    simp

/-- The number of distinct app-level groups among the interesting stacks
of a run (used to state the granularity claim). -/
def appGroupCount (stacksInput : List Stack) (rc : RegionConfiguration)
    (environment : String) (apps includes : Option (List String)) :
    Except String Nat := do
  let m ← getStacks stacksInput
  let interesting ← filterInteresting environment apps includes (jsMapValues m)
  let names ← interesting.mapM (fun s => getNodeNameForApp s rc)
  return names.dedup.length

/-- C2 counterexample: with no `--app` option and a single involved group
(one app), the coarse-grained outputs — apps-directory units and the apps
graph image — are still produced, refuting "produced only when multiple
groups are involved". -/
theorem c2_counterexample :
    appGroupCount [stackBas] ⟨some "us-east-1", false⟩ "staging" none none
      = .ok 1 ∧
    mainEvents (some "us-east-1") [stackBas] [] [] [] "staging" none none
      = .ok
      [Event.unit Dir.apps "bas-staging",
       Event.unit Dir.stacks "bas-api-staging",
       Event.unit Dir.apps "bas-staging",
       Event.unit Dir.stacks "bas-api-staging",
       Event.image "graph-apps.png",
       Event.image "graph-stacks.png"] :=
  ⟨rfl, rfl⟩

/-- C2 witness: in the single-group run above the guard is on (no `--app`
option), and the apps graph image is indeed among the outputs. -/
theorem c2_coarse_gating_witness :
    Event.image "graph-apps.png" ∈
      [Event.unit Dir.apps "bas-staging",
       Event.unit Dir.stacks "bas-api-staging",
       Event.unit Dir.apps "bas-staging",
       Event.unit Dir.stacks "bas-api-staging",
       Event.image "graph-apps.png",
       Event.image "graph-stacks.png"] := by
  have h : mainEvents (some "us-east-1") [stackBas] [] [] [] "staging" none
      none = .ok
      [Event.unit Dir.apps "bas-staging",
       Event.unit Dir.stacks "bas-api-staging",
       Event.unit Dir.apps "bas-staging",
       Event.unit Dir.stacks "bas-api-staging",
       Event.image "graph-apps.png",
       Event.image "graph-stacks.png"] := rfl
  exact (c2_coarse_gating h).2 rfl

/-- C4 counterexample: with `--app bas` (a single app), an interesting
stack gets a fine-grained placeholder but no coarse-grained one — the
placeholder is not written "into both output directories". -/
theorem c4_counterexample :
    isInterestingStack stackBas "staging" (some ["bas"]) none = .ok true ∧
    processCloudFormation [stackBas] [] ⟨some "eu-west-1", false⟩ "staging"
      (some ["bas"]) none = .ok
      [Event.unit Dir.stacks "bas-api-staging",
       Event.unit Dir.stacks "bas-api-staging"] :=
  ⟨rfl, rfl⟩

/-- C4 amended: every interesting stack gets an empty placeholder unit
named with its stack node name in the fine-grained directory, and — only
when the `--app` option is absent or lists more than one app — an empty
placeholder unit named with its app node name in the coarse-grained
directory. -/
theorem c4_placeholders {stacksInput : List Stack}
    {ew : List ExportWithImports} {rc : RegionConfiguration}
    {environment : String} {apps includes : Option (List String)}
    {evs : List Event} {m : List (String × Stack)} {s : Stack} {n : String}
    (h : processCloudFormation stacksInput ew rc environment apps includes
      = .ok evs)
    (hm : getStacks stacksInput = .ok m)
    (hsmem : s ∈ jsMapValues m)
    (hint : isInterestingStack s environment apps includes = .ok true)
    (hn : getNodeNameForStack s rc = .ok n) :
    Event.unit Dir.stacks n ∈ evs ∧
    (multiApp apps = true → ∀ na, getNodeNameForApp s rc = .ok na →
      Event.unit Dir.apps na ∈ evs) := by
  obtain ⟨m2, interesting, ph, deps, hm2, hfi, hph, _, heq⟩ :=
    processCloudFormation_ok h
  subst heq
  rw [hm] at hm2
  have hmm : m = m2 := Except.ok.inj hm2
  subst hmm
  have hsint : s ∈ interesting := filterInteresting_mem hfi hsmem hint
  obtain ⟨b, hb, hsub⟩ := collectEvents_sub hph hsint
  obtain ⟨n2, hn2, hstk, happ, _, _⟩ := placeholderEvents_ok hb
  rw [hn] at hn2
  have hnn : n = n2 := Except.ok.inj hn2
  subst hnn
  constructor
  · exact List.mem_append.mpr (Or.inl (hsub _ hstk))
  · intro hma na hna
    exact List.mem_append.mpr (Or.inl (hsub _ (happ hma na hna)))

/-- C4 witness: in a run with no `--app` option, the sample stack's
placeholders appear in both directories. -/
theorem c4_placeholders_witness :
    Event.unit Dir.stacks "bas-api-staging" ∈
      [Event.unit Dir.apps "bas-staging",
       Event.unit Dir.stacks "bas-api-staging",
       Event.unit Dir.apps "bas-staging",
       Event.unit Dir.stacks "bas-api-staging"] ∧
    Event.unit Dir.apps "bas-staging" ∈
      [Event.unit Dir.apps "bas-staging",
       Event.unit Dir.stacks "bas-api-staging",
       Event.unit Dir.apps "bas-staging",
       Event.unit Dir.stacks "bas-api-staging"] := by
  have h : processCloudFormation [stackBas] [] ⟨some "eu-west-1", false⟩
      "staging" none none = .ok
      [Event.unit Dir.apps "bas-staging",
       Event.unit Dir.stacks "bas-api-staging",
       Event.unit Dir.apps "bas-staging",
       Event.unit Dir.stacks "bas-api-staging"] := rfl
  have hc := c4_placeholders (m := [("arn-bas", stackBas),
      ("bas-api-staging", stackBas)]) (s := stackBas)
      (n := "bas-api-staging") h rfl (by decide) rfl rfl
  exact ⟨hc.1, hc.2 rfl "bas-staging" rfl⟩

/-- The pagination loop started at any request token: consuming the pages
before the first token-free page, in order. -/
theorem consumeAllTokensFrom_spec {T : Type} :
    ∀ (ps : List (Page T)) (token : Option String) (pLast : Page T)
      (rest : List (Page T)),
      (∀ p ∈ ps, p.nextToken.isSome) → pLast.nextToken = none →
      consumeAllTokensFrom token (ps ++ pLast :: rest) =
        some ((ps.map (fun p => p.results.getD [])).flatten
            ++ pLast.results.getD [],
          token :: ps.map Page.nextToken) := by
  intro ps
  induction ps with
  | nil =>
    intro token pLast rest _ hlast
    simp [consumeAllTokensFrom, hlast]
  | cons p ps ih =>
    intro token pLast rest hps hlast
    have hp : p.nextToken.isSome := hps p (List.mem_cons_self p ps)
    obtain ⟨t, ht⟩ := Option.isSome_iff_exists.mp hp
    simp only [List.cons_append, consumeAllTokensFrom, ht, List.append_eq]
    rw [ih (some t) pLast rest
      (fun q hq => hps q (List.mem_cons_of_mem p hq)) hlast]
    simp [ht, List.append_assoc]

/-- C6: each paginated operation passes each response's next token to the
following request (the k-th request carries the (k-1)-th response's
token, the first carries none), accumulates every page's result list in
order (absent lists contributing nothing), and stops exactly at the first
response without a next token, leaving later pages unconsumed. -/
theorem c6_pagination {T : Type} (ps : List (Page T)) (pLast : Page T)
    (rest : List (Page T)) (hps : ∀ p ∈ ps, p.nextToken.isSome)
    (hlast : pLast.nextToken = none) :
    consumeAllTokens (ps ++ pLast :: rest) =
      some ((ps.map (fun p => p.results.getD [])).flatten
          ++ pLast.results.getD [],
        none :: ps.map Page.nextToken) :=
  consumeAllTokensFrom_spec ps none pLast rest hps hlast

/-- C6 witness: a two-page transcript (with a trailing unconsumed page):
the pages' lists are concatenated in order and the second request carries
the first response's token. -/
theorem c6_pagination_witness :
    (∀ p ∈ [({ results := some ["a"], nextToken := some "t1" } : Page String)],
      p.nextToken.isSome) ∧
    consumeAllTokens
      ([({ results := some ["a"], nextToken := some "t1" } : Page String)] ++
        ({ results := some ["b", "c"], nextToken := none } : Page String) ::
        [({ results := some ["z"], nextToken := some "t9" } : Page String)]) =
      some (["a", "b", "c"], [none, some "t1"]) :=
  ⟨by decide,
    c6_pagination [{ results := some ["a"], nextToken := some "t1" }]
      { results := some ["b", "c"], nextToken := none }
      [{ results := some ["z"], nextToken := some "t9" }] (by decide) rfl⟩

/-- C9: when the pagination loop throws, `listImports` returns the empty
list exactly for a `CloudFormationServiceException` whose message says
the export is not imported by any stack, and propagates every other
error unchanged. -/
theorem c9_not_imported_handling (exportName : String)
    (pages : List (Except CfError (Page String))) (e : CfError)
    (h : consumeAllTokensE pages = some (.error e)) :
    (e = .serviceException (notImportedMessage exportName) →
      listImports exportName pages = some (.ok []))
    ∧ (e ≠ .serviceException (notImportedMessage exportName) →
      listImports exportName pages = some (.error e)) := by
  constructor
  · intro he
    simp [listImports, h, he]
  · intro he
    simp [listImports, h, he]

/-- C9 witness: an immediate not-imported service exception yields the
empty list, while another error propagates unchanged. -/
theorem c9_not_imported_handling_witness :
    consumeAllTokensE
      [(.error (.serviceException (notImportedMessage "foo"))
        : Except CfError (Page String))] =
      some (.error (.serviceException (notImportedMessage "foo"))) ∧
    listImports "foo" [.error (.serviceException (notImportedMessage "foo"))]
      = some (.ok []) ∧
    listImports "foo" [(.error (.otherError "boom")
        : Except CfError (Page String))]
      = some (.error (.otherError "boom")) :=
  ⟨rfl,
    (c9_not_imported_handling "foo"
      [.error (.serviceException (notImportedMessage "foo"))]
      (.serviceException (notImportedMessage "foo")) rfl).1 rfl,
    (c9_not_imported_handling "foo" [.error (.otherError "boom")]
      (.otherError "boom") rfl).2 (by decide)⟩

/-- Writing a file and reading it back. -/
theorem readFileOrNull_fsWrite (files : List (String × String))
    (k v : String) : readFileOrNull (fsWrite files k v) k = some v := by
  induction files with
  | nil => simp [fsWrite, readFileOrNull]
  | cons p rest ih =>
    obtain ⟨n, c⟩ := p
    by_cases hn : n = k
    · simp [fsWrite, hn, readFileOrNull]
    · simp [fsWrite, hn, readFileOrNull, ih]

/-- C3 counterexample: a cache file for the key exists (with empty
contents), yet `cacheOrWork` still invokes the work function — its
truthiness test treats an existing empty file as a miss. -/
theorem c3_counterexample :
    readFileOrNull [("k", "")] "k" = some "" ∧
    (cacheOrWork (fun _ : Nat => "five") (fun s => s.length) "k" (fun _ => 5)
      ⟨[("k", "")], 0⟩).2.workCount = 1 :=
  ⟨rfl, rfl⟩

/-- C3 amended: when a cache file for the key exists with non-empty
contents, `cacheOrWork` returns its parsed contents and never invokes the
work function; when the file is absent (or exists but is empty), the work
function is invoked exactly once, its stringified result is persisted
under the key, and the result is returned. -/
theorem c3_cacheOrWork {α : Type} (stringify : α → String)
    (parse : String → α) (key : String) (work : Unit → α) (st : CacheState) :
    (∀ c, readFileOrNull st.files key = some c → c ≠ "" →
      cacheOrWork stringify parse key work st = (parse c, st))
    ∧ (isTruthy (readFileOrNull st.files key) = false →
      cacheOrWork stringify parse key work st =
        (work (), ⟨fsWrite st.files key (stringify (work ())),
          st.workCount + 1⟩) ∧
      readFileOrNull (fsWrite st.files key (stringify (work ()))) key =
        some (stringify (work ()))) := by
  constructor
  · intro c hc hne
    simp [cacheOrWork, hc, isTruthy, hne]
  · intro hf
    refine ⟨?_, readFileOrNull_fsWrite st.files key (stringify (work ()))⟩
    simp only [cacheOrWork, hf]
    rfl

/-- C3 witness: a non-empty cache hit returns the parsed contents without
running work; a miss runs work once, persists, and returns the result. -/
theorem c3_cacheOrWork_witness :
    cacheOrWork (fun _ : Nat => "five") (fun s => s.length) "k" (fun _ => 5)
      ⟨[("k", "[1]")], 0⟩ = (3, ⟨[("k", "[1]")], 0⟩) ∧
    cacheOrWork (fun _ : Nat => "five") (fun s => s.length) "k" (fun _ => 5)
      ⟨[], 0⟩ = (5, ⟨[("k", "five")], 1⟩) :=
  ⟨(c3_cacheOrWork (fun _ : Nat => "five") (fun s => s.length) "k"
      (fun _ => 5) ⟨[("k", "[1]")], 0⟩).1 "[1]" rfl (by decide),
    ((c3_cacheOrWork (fun _ : Nat => "five") (fun s => s.length) "k"
      (fun _ => 5) ⟨[], 0⟩).2 rfl).1⟩

/-- Reducing a bind on a successful `Except` value. -/
theorem exceptOkBind {α β : Type} (a : α) (f : α → Except String β) :
    (Except.ok a >>= f) = f a := rfl

/-- A tag value `getTagValue` returns is never the empty string (the
source throws on falsy tag values). -/
theorem getTagValue_truthy {stack : Stack} {k v : String}
    (h : getTagValue stack k = .ok (some v)) : v ≠ "" := by
  unfold getTagValue at h
  split at h
  · exact Except.noConfusion h
  · split at h
    · have := Except.ok.inj h
      exact absurd this (by simp)
    · split at h
      · rename_i hcond
        have hv := Except.ok.inj h
        rw [hv] at hcond
        simpa [isTruthy] using hcond
      · exact Except.noConfusion h

/-- C7 counterexample: `getNodeNameForApp` does not throw on a stack
without a `StackName` when both tags are present, and on the implicit
us-east-1 pass the node name is not plain `'<product>-<environment>'`
but carries a region suffix. -/
theorem c7_counterexample :
    getNodeNameForApp
      ⟨none, none, none,
        some [⟨some "balsamiq-product", some "bas"⟩,
          ⟨some "environment", some "staging"⟩]⟩
      ⟨some "eu-west-1", false⟩ = .ok "bas-staging" ∧
    getNodeNameForApp stackBas ⟨some "us-east-1", true⟩
      = .ok "bas-staging (us-east-1)" :=
  ⟨rfl, rfl⟩

/-- C7 amended: `getNodeNameForApp` returns
`'<balsamiq-product>-<environment>'` plus the implicit-region suffix when
both tags are present (regardless of `StackName`), falls back to the
`StackName` plus the suffix otherwise, and throws only when the tag pair
is incomplete and the `StackName` is missing or empty;
`getNodeNameForStack` returns the `StackName` plus the suffix and throws
exactly when the `StackName` is missing or empty. -/
theorem c7_node_names (stack : Stack) (rc : RegionConfiguration) :
    (∀ a e2, getTagValue stack "balsamiq-product" = .ok (some a) →
      getTagValue stack "environment" = .ok (some e2) →
      getNodeNameForApp stack rc = .ok (a ++ "-" ++ e2 ++ regionSuffix rc))
    ∧ (∀ bpv ev, getTagValue stack "balsamiq-product" = .ok bpv →
      getTagValue stack "environment" = .ok ev →
      (isTruthy bpv && isTruthy ev) = false →
      (∀ s2, stack.StackName = some s2 → s2 ≠ "" →
        getNodeNameForApp stack rc = .ok (s2 ++ regionSuffix rc))
      ∧ (isTruthy stack.StackName = false →
        getNodeNameForApp stack rc = .error "Invalid stack"))
    ∧ (∀ s2, stack.StackName = some s2 → s2 ≠ "" →
      getNodeNameForStack stack rc = .ok (s2 ++ regionSuffix rc))
    ∧ (isTruthy stack.StackName = false →
      getNodeNameForStack stack rc = .error "Invalid stack") := by
  refine ⟨?_, ?_, ?_, ?_⟩
  · intro a e2 ha he
    have h1 : isTruthy (some a) = true := by
      simp [isTruthy, getTagValue_truthy ha]
    have h2 : isTruthy (some e2) = true := by
      simp [isTruthy, getTagValue_truthy he]
    simp [getNodeNameForApp, ha, he, exceptOkBind, h1, h2]
    rfl
  · intro bpv ev ha he hff
    constructor
    · intro s2 hs hne
      have h3 : isTruthy (some s2) = true := by
        simp [isTruthy, hne]
      simp only [getNodeNameForApp, ha, he, exceptOkBind, hff,
        Bool.false_eq_true, if_false, hs, h3, eq_self_iff_true, if_true]
      rfl
    · intro h3
      simp only [getNodeNameForApp, ha, he, exceptOkBind, hff,
        Bool.false_eq_true, if_false, h3]
  · intro s2 hs hne
    have h3 : isTruthy (some s2) = true := by
      simp [isTruthy, hne]
    simp only [getNodeNameForStack, hs, h3, eq_self_iff_true, if_true]
    rfl
  · intro h3
    simp only [getNodeNameForStack, h3, Bool.false_eq_true, if_false]

/-- C7 witness: the amended characterisation applied to the sample stack,
on the primary pass (no suffix) and with the tag-based name. -/
theorem c7_node_names_witness :
    getNodeNameForApp stackBas ⟨some "eu-west-1", false⟩ = .ok "bas-staging" ∧
    getNodeNameForStack stackBas ⟨some "eu-west-1", false⟩
      = .ok "bas-api-staging" := by
  have h1 := (c7_node_names stackBas ⟨some "eu-west-1", false⟩).1
    "bas" "staging" rfl rfl
  have h2 := (c7_node_names stackBas ⟨some "eu-west-1", false⟩).2.2.1
    "bas-api-staging" rfl (by decide)
  exact ⟨h1, h2⟩

/-- The two map entries `getStacks` adds for one stack. -/
def stackEntries (s : Stack) : List (String × Stack) :=
  [(s.StackId.getD "", s), (s.StackName.getD "", s)]

/-- The keys `getStacks` uses, in insertion order. -/
def stackKeys (l : List Stack) : List String :=
  l.flatMap (fun s => [s.StackId.getD "", s.StackName.getD ""])

/-- Setting a fresh key appends the entry. -/
theorem jsMapSet_fresh : ∀ (m : List (String × Stack)) (k : String) (v : Stack),
    (∀ p ∈ m, p.1 ≠ k) → jsMapSet m k v = m ++ [(k, v)] := by
  intro m
  induction m with
  | nil =>
    intro k v _
    rfl
  | cons p rest ih =>
    intro k v h
    obtain ⟨k0, v0⟩ := p
    have hk0 : k0 ≠ k := h (k0, v0) (List.mem_cons_self _ _)
    simp only [jsMapSet, if_neg hk0, List.cons_append]
    rw [ih k v (fun q hq => h q (List.mem_cons_of_mem _ hq))]

/-- With pairwise-fresh keys, `getStacksAux` appends both entries of every
good stack, in order. -/
theorem getStacksAux_spec :
    ∀ (l : List Stack) (m : List (String × Stack)),
      (∀ s ∈ l, isTruthy s.StackId = true ∧ isTruthy s.StackName = true) →
      (∀ k ∈ stackKeys l, ∀ p ∈ m, p.1 ≠ k) →
      (stackKeys l).Nodup →
      getStacksAux m l = .ok (m ++ l.flatMap stackEntries) := by
  intro l
  induction l with
  | nil =>
    intro m _ _ _
    simp [getStacksAux]
  | cons s rest ih =>
    intro m hgood hfresh hnodup
    obtain ⟨h1, h2⟩ := hgood s (List.mem_cons_self _ _)
    have hkeys : stackKeys (s :: rest) =
        s.StackId.getD "" :: s.StackName.getD "" :: stackKeys rest := by
      simp [stackKeys]
    rw [hkeys] at hfresh hnodup
    have hid_nin := (List.nodup_cons.mp hnodup).1
    have hnodup2 := (List.nodup_cons.mp hnodup).2
    have hname_nin := (List.nodup_cons.mp hnodup2).1
    have hnodup3 := (List.nodup_cons.mp hnodup2).2
    have hid_ne_name : s.StackId.getD "" ≠ s.StackName.getD "" := by
      intro hc
      exact hid_nin (by rw [hc]; exact List.mem_cons_self _ _)
    have hid_nin_rest : s.StackId.getD "" ∉ stackKeys rest := by
      intro hc
      exact hid_nin (List.mem_cons_of_mem _ hc)
    simp only [getStacksAux, h1, h2, Bool.not_true, Bool.or_self,
      Bool.false_eq_true, if_false]
    have hid_fresh : ∀ p ∈ m, p.1 ≠ s.StackId.getD "" :=
      hfresh _ (List.mem_cons_self _ _)
    rw [jsMapSet_fresh m _ s hid_fresh]
    have hname_fresh : ∀ p ∈ m ++ [(s.StackId.getD "", s)],
        p.1 ≠ s.StackName.getD "" := by
      intro p hp
      rcases List.mem_append.mp hp with hp | hp
      · exact hfresh _ (List.mem_cons_of_mem _ (List.mem_cons_self _ _)) p hp
      · simp at hp
        rw [hp]
        exact hid_ne_name
    rw [jsMapSet_fresh _ _ s hname_fresh]
    rw [ih (m ++ [(s.StackId.getD "", s)] ++ [(s.StackName.getD "", s)])
      (fun q hq => hgood q (List.mem_cons_of_mem _ hq)) ?_ hnodup3]
    · simp [stackEntries, List.append_assoc]
    · intro k hk p hp
      rcases List.mem_append.mp hp with hp | hp
      · rcases List.mem_append.mp hp with hp | hp
        · exact hfresh k
            (List.mem_cons_of_mem _ (List.mem_cons_of_mem _ hk)) p hp
        · simp at hp
          rw [hp]
          intro hc
          have hc2 : s.StackId.getD "" = k := hc
          exact hid_nin_rest (by rw [hc2]; exact hk)
      · simp at hp
        rw [hp]
        intro hc
        have hc2 : s.StackName.getD "" = k := hc
        exact hname_nin (by rw [hc2]; exact hk)

/-- Lookup in a map whose keys are pairwise distinct finds the stored
pair. -/
theorem jsMapGet_of_mem : ∀ {m : List (String × Stack)} {k : String}
    {v : Stack}, (m.map Prod.fst).Nodup → (k, v) ∈ m →
    jsMapGet m k = some v := by
  intro m
  induction m with
  | nil =>
    intro k v _ h
    simp at h
  | cons p rest ih =>
    intro k v hnd hmem
    obtain ⟨k0, v0⟩ := p
    simp only [List.map_cons, List.nodup_cons] at hnd
    rcases List.mem_cons.mp hmem with heq | hmem2
    · cases heq
      simp [jsMapGet]
    · have hk0 : k0 ≠ k := by
        intro hc
        subst hc
        exact hnd.1 (List.mem_map.mpr ⟨(k0, v), hmem2, rfl⟩)
      simp [jsMapGet, hk0, ih hnd.2 hmem2]

/-- The keys of the entries `getStacks` builds. -/
theorem stackEntries_keys : ∀ (l : List Stack),
    (l.flatMap stackEntries).map Prod.fst = stackKeys l := by
  intro l
  induction l with
  | nil => rfl
  | cons s rest ih =>
    simp only [stackKeys, List.flatMap_cons, List.map_append, ih]
    simp [stackEntries, stackKeys]

/-- A stack with a falsy id or name anywhere in the list makes
`getStacksAux` throw. -/
theorem getStacksAux_error : ∀ (l : List Stack) (m : List (String × Stack)),
    (∃ s ∈ l, isTruthy s.StackId = false ∨ isTruthy s.StackName = false) →
    getStacksAux m l = .error "Invalid stack" := by
  intro l
  induction l with
  | nil =>
    intro m h
    simp at h
  | cons s rest ih =>
    intro m h
    by_cases hbad : (!isTruthy s.StackId || !isTruthy s.StackName) = true
    · simp [getStacksAux, hbad]
    · have hbad2 : (!isTruthy s.StackId || !isTruthy s.StackName) = false :=
        eq_false_of_ne_true hbad
      obtain ⟨ha, hb⟩ := Bool.or_eq_false_iff.mp hbad2
      have h1 : isTruthy s.StackId = true := by simpa using ha
      have h2 : isTruthy s.StackName = true := by simpa using hb
      simp only [getStacksAux, h1, h2, Bool.not_true, Bool.or_self,
        Bool.false_eq_true, if_false]
      obtain ⟨s2, hs2, hflag⟩ := h
      rcases List.mem_cons.mp hs2 with heq | hmem
      · subst heq
        rcases hflag with hb | hb
        · rw [h1] at hb
          exact absurd hb (by simp)
        · rw [h2] at hb
          exact absurd hb (by simp)
      · exact ih _ ⟨s2, hmem, hflag⟩

/-- C10 counterexample: two fetched stacks sharing a `StackName` — the
later one overwrites the map entry, so the earlier stack is not found
under its `StackName` (the claim's "every fetched stack under two keys"
fails). -/
theorem c10_counterexample :
    getStacks [⟨some "i1", some "n", none, some []⟩,
      ⟨some "i2", some "n", none, some []⟩] = .ok
      [("i1", ⟨some "i1", some "n", none, some []⟩),
       ("n", ⟨some "i2", some "n", none, some []⟩),
       ("i2", ⟨some "i2", some "n", none, some []⟩)] ∧
    jsMapGet
      [("i1", ⟨some "i1", some "n", none, some []⟩),
       ("n", ⟨some "i2", some "n", none, some []⟩),
       ("i2", ⟨some "i2", some "n", none, some []⟩)] "n" =
      some ⟨some "i2", some "n", none, some []⟩ ∧
    (⟨some "i1", some "n", none, some []⟩ : Stack) ≠
      ⟨some "i2", some "n", none, some []⟩ :=
  ⟨rfl, rfl, by decide⟩

/-- C10 amended: when every fetched stack has a truthy `StackId` and
`StackName` and all these keys are pairwise distinct, the map `getStacks`
returns contains every fetched stack under both its `StackId` and its
`StackName`, with both keys mapping to the same stack record (on
duplicate keys the later stack overwrites the entry); and `getStacks`
throws whenever some fetched stack has a falsy `StackId` or
`StackName`. -/
theorem c10_getStacks (l : List Stack) :
    ((∀ s ∈ l, isTruthy s.StackId = true ∧ isTruthy s.StackName = true) →
      (stackKeys l).Nodup →
      ∃ m, getStacks l = .ok m ∧ ∀ s ∈ l,
        jsMapGet m (s.StackId.getD "") = some s ∧
        jsMapGet m (s.StackName.getD "") = some s)
    ∧ ((∃ s ∈ l, isTruthy s.StackId = false ∨ isTruthy s.StackName = false) →
      getStacks l = .error "Invalid stack") := by
  constructor
  · intro hgood hnodup
    refine ⟨l.flatMap stackEntries, ?_, ?_⟩
    · have := getStacksAux_spec l [] hgood (by simp) hnodup
      simpa [getStacks] using this
    · intro s hs
      have hkeys : ((l.flatMap stackEntries).map Prod.fst).Nodup := by
        rw [stackEntries_keys]
        exact hnodup
      constructor
      · exact jsMapGet_of_mem hkeys
          (List.mem_flatMap.mpr ⟨s, hs, by simp [stackEntries]⟩)
      · exact jsMapGet_of_mem hkeys
          (List.mem_flatMap.mpr ⟨s, hs, by simp [stackEntries]⟩)
  · intro h
    exact getStacksAux_error l [] h

/-- C10 witness: the amended statement applied to the two sample stacks,
whose four keys are pairwise distinct. -/
theorem c10_getStacks_witness :
    ∃ m, getStacks [stackBas, stackRtc] = .ok m ∧
      ∀ s ∈ [stackBas, stackRtc],
        jsMapGet m (s.StackId.getD "") = some s ∧
        jsMapGet m (s.StackName.getD "") = some s :=
  (c10_getStacks [stackBas, stackRtc]).1 (by decide) (by decide)

/-- The interestingness condition exactly as claim C5 words it: the
environment test, the fixed exclusions, the conditional resource-kind
exclusions, and — whenever `apps` is supplied — "the name starts with
`'<app>-'` for some app in the list". -/
def claimedInteresting (stack : Stack) (name environment : String)
    (apps includes : Option (List String)) : Prop :=
  (strInfix ("-" ++ environment ++ "-") name = true ∨
    strSuffix ("-" ++ environment) name = true)
  ∧ name ≠ "CDKToolkit"
  ∧ stack.ParentId = none
  ∧ strPrefix "internal-" name = false
  ∧ name ≠ "balsamiq-slack"
  ∧ (∀ p ∈ excludedAppPrefixes, strPrefix (p ++ "-") name = false)
  ∧ (strSuffix "-mysql" name = true → includesHas includes "mysql" = true)
  ∧ (strSuffix "-redis" name = true → includesHas includes "redis" = true)
  ∧ (∀ l, apps = some l → ∃ a ∈ l, strPrefix (a ++ "-") name = true)

/-- The same condition with the supplied-but-empty `apps` case amended to
what the built regex `^()-` actually tests: the name starts with `-`. -/
def claimedInterestingAmended (stack : Stack) (name environment : String)
    (apps includes : Option (List String)) : Prop :=
  (strInfix ("-" ++ environment ++ "-") name = true ∨
    strSuffix ("-" ++ environment) name = true)
  ∧ name ≠ "CDKToolkit"
  ∧ stack.ParentId = none
  ∧ strPrefix "internal-" name = false
  ∧ name ≠ "balsamiq-slack"
  ∧ (∀ p ∈ excludedAppPrefixes, strPrefix (p ++ "-") name = false)
  ∧ (strSuffix "-mysql" name = true → includesHas includes "mysql" = true)
  ∧ (strSuffix "-redis" name = true → includesHas includes "redis" = true)
  ∧ (∀ l, apps = some l →
      (l = [] → strPrefix "-" name = true) ∧
      (l ≠ [] → ∃ a ∈ l, strPrefix (a ++ "-") name = true))

/-- C5 counterexample: with `apps` supplied as the empty list the built
regex is `^()-`, so a stack named `-staging` is accepted even though no
app in the (empty) list prefixes its name — the claim's iff fails. -/
theorem c5_counterexample :
    isInterestingStack ⟨some "id", some "-staging", none, some []⟩ "staging"
      (some []) none = .ok true ∧
    ¬ claimedInteresting ⟨some "id", some "-staging", none, some []⟩
      "-staging" "staging" (some []) none := by
  refine ⟨rfl, ?_⟩
  intro h
  obtain ⟨a, ha, _⟩ := h.2.2.2.2.2.2.2.2 [] rfl
  simp at ha

/-- The app-prefix regex test, characterised. -/
theorem appsMatch_iff (apps : Option (List String)) (name : String) :
    appsMatch apps name = true ↔
      ∀ l, apps = some l →
        (l = [] → strPrefix "-" name = true) ∧
        (l ≠ [] → ∃ a ∈ l, strPrefix (a ++ "-") name = true) := by
  cases apps with
  | none => simp [appsMatch]
  | some l =>
    cases l with
    | nil => simp [appsMatch]
    | cons a as =>
      simp [appsMatch, List.any_eq_true]

/-- C5 amended: for a stack with a (non-empty) name,
`isInterestingStack` returns true iff the name matches the environment,
none of the fixed exclusions applies, the `-mysql`/`-redis` suffixes only
occur when included, and, when `apps` is supplied non-empty, the name
starts with `'<app>-'` for some app in the list — while a supplied empty
list accepts any name starting with `-`. -/
theorem c5_isInterestingStack (stack : Stack) (environment name : String)
    (apps includes : Option (List String))
    (hname : stack.StackName = some name) (hne : name ≠ "") :
    isInterestingStack stack environment apps includes = .ok true ↔
      claimedInterestingAmended stack name environment apps includes := by
  have ht2 : isTruthy (some name) = true := by
    simp [isTruthy, hne]
  unfold isInterestingStack claimedInterestingAmended
  rw [hname]
  simp only [ht2, Option.getD_some, Bool.not_true, Bool.false_eq_true,
    if_false, Except.ok.injEq]
  cases hm : includesHas includes "mysql" <;>
    cases hr : includesHas includes "redis" <;>
    simp only [hm, hr, Bool.not_false, Bool.not_true, if_true, if_false,
      Bool.false_eq_true] <;>
    simp [Bool.and_eq_true, decide_eq_true_eq, envMatches, Bool.or_eq_true,
      Bool.not_eq_true', List.any_eq_false, appsMatch_iff,
      Option.not_isSome, Option.isNone_iff_eq_none, and_assoc] <;>
    tauto

/-- C5 witness: the sample stack under `--app bas` and default includes
satisfies both sides of the amended iff. -/
theorem c5_isInterestingStack_witness :
    isInterestingStack stackBas "staging" (some ["bas"]) none = .ok true ∧
    claimedInterestingAmended stackBas "bas-api-staging" "staging"
      (some ["bas"]) none :=
  ⟨rfl, (c5_isInterestingStack stackBas "staging" "bas-api-staging"
    (some ["bas"]) none rfl (by decide)).mp rfl⟩

end BikGrapher

namespace BikGrapher

/- Quick sanity examples (kept: they document the intended evaluation
behaviour of the embedding on concrete data). -/

example : strPrefix "ab" "abc" = true := by decide

example :
    isInterestingStack
      ⟨some "id", some "bas-api-staging", none, some []⟩
      "staging" none none = .ok true := by rfl

example :
    isInterestingStack
      ⟨some "id", some "CDKToolkit", none, some []⟩
      "staging" none none = .ok false := by rfl

end BikGrapher
